import Mathlib

/-!
# RealtimeEffectStateUI (src/effects/RealtimeEffectStateUI.cpp)

A shallow embedding of the object that owns the dialog hosting a realtime
effect's user interface.  The object's fields are modelled by the structure
`RealtimeEffectStateUI`; the calls it makes on its collaborators (effect
registry, host window, project window) are recorded, in order, in an event
log, and the answers of the collaborators are supplied by a `Collaborators`
record for each call.

Modelling decisions:

* `mEffectUIHost` is a weak reference to a window.  It is modelled by
  `Option EffectUIHost`, the record holding the observable state of the window
  referred to (identity, visibility, title, name).  `none` is the null
  reference.
* `TranslatableString` and `wxString` are `String`; `XO("%s - %s").Format(a, b)`
  is `a ++ " - " ++ b`.
* `assert(false)` is recorded as the event `Event.assertFalse` and execution
  continues with the statement that follows it, as in a build with `NDEBUG`.
* The registry gives one answer for the state's ID during one call of a member
  function (`Show` asks at line 55 and again, through `UpdateTitle`, at line
  143); the answer may differ from one call to the next.
* A window changes only through the calls the object makes on it and through
  `ShowClientInterface`; actions of the user on the window between two
  operations are not part of the model.  States with a host that is not
  visible are nevertheless covered by the statements about every state.
* `ProjectWindowDestroyedMessage` reaches the object only through the
  subscription it holds, which is on the window of one project.
-/

namespace Audacity

/-- Identity of an `AudacityProject` (and of its `ProjectWindow`). -/
abbrev AudacityProject := Nat

/-- Identity of an `EffectUIHost` window. -/
abbrev HostId := Nat

/-- What `EffectManager::Get().GetEffect(ID)` returns when it is not null: an
effect plugin, seen through the two members the code uses. -/
structure EffectPlugin where
  /-- Value of `GetDefinition().GetName()`. -/
  definitionName : String
  /-- Whether `GetEffectUIClientInterface()` is not null. -/
  hasClientInterface : Bool
deriving DecidableEq, Repr

/-- A track, seen through `GetName()`. -/
structure Track where
  name : String
deriving DecidableEq, Repr

/-- State in which `ShowClientInterface` leaves the dialog it was given. -/
inductive ClientOutcome
  /-- The dialog is alive and shown (non-modal display). -/
  | shown
  /-- The dialog is alive but not shown. -/
  | hidden
  /-- The dialog was destroyed: the weak reference reads null. -/
  | destroyed
deriving DecidableEq, Repr

/-- Answers of the collaborators during one call of a member function. -/
structure Collaborators where
  /-- Result of `EffectManager::Get().GetEffect(mRealtimeEffectState.GetID())`. -/
  effect : Option EffectPlugin
  /-- Result of `dlg->Initialize()`. -/
  dlgInit : Bool
  /-- What `client->ShowClientInterface` does to the dialog. -/
  clientOutcome : ClientOutcome
deriving DecidableEq, Repr

/-- Observable state of an `EffectUIHost` window. -/
structure EffectUIHost where
  id : HostId
  /-- Value of `IsShown()` of the window. -/
  shown : Bool
  /-- Last argument of `SetTitle`. -/
  title : String
  /-- Last argument of `SetName`. -/
  name : String
deriving DecidableEq, Repr

/-- Calls made on collaborators, in the order the code makes them. -/
inductive Event
  /-- Call of `EffectManager::Get().GetEffect(ID)`. -/
  | getEffect
  /-- Call of `safenew EffectUIHost(&projectWindow, project, ...)`. -/
  | newHost (host : HostId) (project : AudacityProject)
  /-- Call of `dlg->Initialize()`. -/
  | dlgInit (host : HostId)
  /-- The deleter of `Destroy_ptr` running on an unreleased dialog. -/
  | destroyHost (host : HostId)
  /-- Call of `mEffectUIHost->Raise()`. -/
  | raise (host : HostId)
  /-- Call of `mEffectUIHost->SetTitle(title)`. -/
  | setTitle (host : HostId) (title : String)
  /-- Call of `mEffectUIHost->SetName(title)`. -/
  | setName (host : HostId) (title : String)
  /-- Call of `client->ShowClientInterface(projectWindow, *mEffectUIHost, ...)`. -/
  | showClientInterface (host : HostId)
  /-- Call of `assert(false)`. -/
  | assertFalse
  /-- Call of `projectWindow.Subscribe(...)`. -/
  | subscribe (project : AudacityProject)
  /-- Call of `mEffectUIHost->Close()`. -/
  | close (host : HostId)
deriving DecidableEq, Repr

/-- The data members of `RealtimeEffectStateUI`. -/
structure RealtimeEffectStateUI where
  mEffectUIHost : Option EffectUIHost
  mEffectName : String
  mTrackName : String
  /-- The project window whose destruction message the object is subscribed
  to, if any. -/
  mProjectWindowDestroyedSubscription : Option AudacityProject
deriving DecidableEq, Repr

/-- The object together with its surroundings: the number of host windows
allocated so far (the next window gets this number as identity) and the log
of calls made on collaborators. -/
structure System where
  ui : RealtimeEffectStateUI
  allocated : Nat
  log : List Event
deriving DecidableEq, Repr

/-- State after the constructor: null host, empty names, no subscription. -/
def fresh : System :=
  { ui := { mEffectUIHost := none, mEffectName := "", mTrackName := "",
            mProjectWindowDestroyedSubscription := none },
    allocated := 0, log := [] }

/-- Member function `RealtimeEffectStateUI::IsShown`: `mEffectUIHost != nullptr`. -/
def IsShown (s : System) : Bool :=
  s.ui.mEffectUIHost.isSome

/-- The title expression of `UpdateTitle`:
`mTrackName.empty() ? mEffectName : XO("%s - %s").Format(mEffectName, mTrackName)`. -/
def titleOf (effectName trackName : String) : String :=
  if trackName = "" then effectName else effectName ++ " - " ++ trackName

/-- Member function `RealtimeEffectStateUI::UpdateTitle`; `effect` is what the registry
returns if it is asked. -/
def UpdateTitle (effect : Option EffectPlugin) (s : System) : System :=
  match s.ui.mEffectUIHost with
  | none => s
  | some host =>
    let s1 : System :=
      if s.ui.mEffectName = "" then
        match effect with
        | some effectPlugin =>
          { s with ui := { s.ui with mEffectName := effectPlugin.definitionName },
                   log := s.log ++ [Event.getEffect] }
        | none => { s with log := s.log ++ [Event.getEffect] }
      else s
    let title := titleOf s1.ui.mEffectName s1.ui.mTrackName
    { s1 with
      ui := { s1.ui with mEffectUIHost := some { host with title := title, name := title } },
      log := s1.log ++ [Event.setTitle host.id title, Event.setName host.id title] }

/-- Member function `RealtimeEffectStateUI::Hide`. -/
def Hide (s : System) : System :=
  match s.ui.mEffectUIHost with
  | some host =>
    { s with ui := { s.ui with mEffectUIHost := none },
             log := s.log ++ [Event.close host.id] }
  | none => s

/-- The destructor `~RealtimeEffectStateUI`, whose body is `Hide();`. -/
def Destructor (s : System) : System :=
  Hide s

/-- The dialog after `ShowClientInterface` returned, as the weak reference
sees it. -/
def afterShowClientInterface (outcome : ClientOutcome) (host : EffectUIHost) :
    Option EffectUIHost :=
  match outcome with
  | ClientOutcome.shown => some { host with shown := true }
  | ClientOutcome.hidden => some { host with shown := false }
  | ClientOutcome.destroyed => none

/-- The condition `mEffectUIHost != nullptr && mEffectUIHost->IsShown()`. -/
def hostIsShown (host : Option EffectUIHost) : Bool :=
  match host with
  | some h => h.shown
  | none => false

/-- Lines 54 to 96 of `RealtimeEffectStateUI::Show`: what `Show` does when it
does not return early. -/
def ShowCreate (env : Collaborators) (project : AudacityProject) (s : System) : System :=
  let s1 : System := { s with log := s.log ++ [Event.getEffect] }
  match env.effect with
  | none => s1
  | some effectPlugin =>
    -- Effect has no client interface
    if effectPlugin.hasClientInterface = false then s1
    else
      let dlg : EffectUIHost := { id := s1.allocated, shown := false, title := "", name := "" }
      let s2 : System :=
        { s1 with allocated := s1.allocated + 1,
                  log := s1.log ++ [Event.newHost dlg.id project, Event.dlgInit dlg.id] }
      if env.dlgInit = false then
        { s2 with log := s2.log ++ [Event.destroyHost dlg.id] }
      else
        -- Dialog is owned by its parent now!
        let s3 : System := { s2 with ui := { s2.ui with mEffectUIHost := some dlg } }
        let s4 : System := UpdateTitle env.effect s3
        let s5 : System :=
          { s4 with
            ui := { s4.ui with
                    mEffectUIHost :=
                      s4.ui.mEffectUIHost.bind (afterShowClientInterface env.clientOutcome) },
            log := s4.log ++ [Event.showClientInterface dlg.id] }
        -- The dialog was modal? That shouldn't have happened
        let s6 : System :=
          if hostIsShown s5.ui.mEffectUIHost = false then
            { s5 with ui := { s5.ui with mEffectUIHost := none },
                      log := s5.log ++ [Event.assertFalse] }
          else s5
        { s6 with
          ui := { s6.ui with mProjectWindowDestroyedSubscription := some project },
          log := s6.log ++ [Event.subscribe project] }

/-- Member function `RealtimeEffectStateUI::Show`. -/
def Show (env : Collaborators) (project : AudacityProject) (s : System) : System :=
  match s.ui.mEffectUIHost with
  | some host =>
    if host.shown then
      -- Bring the host to front
      { s with log := s.log ++ [Event.raise host.id] }
    else ShowCreate env project s
  | none => ShowCreate env project s

/-- Member function `RealtimeEffectStateUI::Toggle`. -/
def Toggle (env : Collaborators) (project : AudacityProject) (s : System) : System :=
  if IsShown s then Hide s else Show env project s

/-- Member function `RealtimeEffectStateUI::UpdateTrackData`; `effect` is what the registry
returns if `UpdateTitle` asks it. -/
def UpdateTrackData (effect : Option EffectPlugin) (track : Track) (s : System) : System :=
  UpdateTitle effect { s with ui := { s.ui with mTrackName := track.name } }

/-- The callback given to `projectWindow.Subscribe`:
`[this](ProjectWindowDestroyedMessage) { Hide(); }`. -/
def OnProjectWindowDestroyed (s : System) : System :=
  Hide s

/-- The window of `project` publishes `ProjectWindowDestroyedMessage`: the
callback runs when the object holds a subscription on that window. -/
def publishProjectWindowDestroyed (project : AudacityProject) (s : System) : System :=
  if s.ui.mProjectWindowDestroyedSubscription = some project then
    OnProjectWindowDestroyed s
  else s

/-- The operations that can be applied to the object. -/
inductive Op
  | Show (env : Collaborators) (project : AudacityProject)
  | Hide
  | Toggle (env : Collaborators) (project : AudacityProject)
  | UpdateTrackData (effect : Option EffectPlugin) (track : Track)
  | UpdateTitle (effect : Option EffectPlugin)
  | ProjectWindowDestroyed (project : AudacityProject)
deriving DecidableEq, Repr

/-- One operation applied to a state. -/
def step (op : Op) (s : System) : System :=
  match op with
  | Op.Show env project => Show env project s
  | Op.Hide => Hide s
  | Op.Toggle env project => Toggle env project s
  | Op.UpdateTrackData effect track => UpdateTrackData effect track s
  | Op.UpdateTitle effect => UpdateTitle effect s
  | Op.ProjectWindowDestroyed project => publishProjectWindowDestroyed project s

/-- A sequence of operations applied in order. -/
def run (ops : List Op) (s : System) : System :=
  match ops with
  | [] => s
  | op :: rest => run rest (step op s)

/-- The value of `mEffectName` after lines 140 to 147 of `UpdateTitle` ran:
an empty cache is filled from the plugin when the registry returns one. -/
def cachedName (effect : Option EffectPlugin) (mEffectName : String) : String :=
  if mEffectName = "" then
    match effect with
    | some effectPlugin => effectPlugin.definitionName
    | none => mEffectName
  else mEffectName

/-- The three ways in which `Show` gives up before storing a dialog: the
registry returns no plugin, the plugin has no client interface, or
`Initialize()` returns false. -/
def ShowFails (env : Collaborators) : Prop :=
  env.effect = none ∨ (∃ p, env.effect = some p ∧ p.hasClientInterface = false) ∨
    env.dlgInit = false

/-- Every collaborator cooperates: the registry returns a plugin with a client
interface, `Initialize()` returns true and `ShowClientInterface` leaves the
dialog shown. -/
def ShowSucceeds (env : Collaborators) : Prop :=
  (∃ p, env.effect = some p ∧ p.hasClientInterface = true) ∧ env.dlgInit = true ∧
    env.clientOutcome = ClientOutcome.shown

/-- Boolean form of `ShowSucceeds`. -/
def showSucceeds (env : Collaborators) : Bool :=
  match env.effect with
  | some p => p.hasClientInterface && env.dlgInit && (env.clientOutcome == ClientOutcome.shown)
  | none => false

/-- The operations that the first testable property of the specification
counts as ending the display: `Hide`, `Toggle` and the destruction of a
project window. -/
def Op.isHideToggleDestroy (op : Op) : Bool :=
  match op with
  | Op.Hide => true
  | Op.Toggle _ _ => true
  | Op.ProjectWindowDestroyed _ => true
  | _ => false

/-- The first testable property of the specification, as worded: the dialog is
shown exactly when the last operation among `Show`, `Hide`, `Toggle` and
window destruction was a `Show` that succeeded.  The argument `shown` is the
value before the operations. -/
def shownAsWorded (shown : Bool) (ops : List Op) : Bool :=
  match ops with
  | [] => shown
  | Op.Show env _ :: rest => shownAsWorded (shown || showSucceeds env) rest
  | op :: rest => shownAsWorded (shown && !op.isHideToggleDestroy) rest

/-- The operations that end the display of a dialog whose parent is the window
of `project`: `Hide`, `Toggle`, and the destruction of that window. -/
def Op.endsDisplay (project : AudacityProject) (op : Op) : Bool :=
  match op with
  | Op.Hide => true
  | Op.Toggle _ _ => true
  | Op.ProjectWindowDestroyed q => decide (q = project)
  | _ => false

/-- The operations that display the dialog when they cooperate: `Show`, and
`Toggle` (which calls `Show` on a hidden object).  Returns the collaborators
and the project of the call. -/
def Op.startsDisplay (op : Op) : Option (Collaborators × AudacityProject) :=
  match op with
  | Op.Show env project => some (env, project)
  | Op.Toggle env project => some (env, project)
  | _ => none

/-- A visible host subscribed to the window of `project`. -/
def Displayed (project : AudacityProject) (s : System) : Prop :=
  (∃ host, s.ui.mEffectUIHost = some host ∧ host.shown = true) ∧
    s.ui.mProjectWindowDestroyedSubscription = some project

/-- What the registry answers during an operation, if it is asked. -/
def Op.registryAnswer (op : Op) : Option EffectPlugin :=
  match op with
  | Op.Show env _ => env.effect
  | Op.Toggle env _ => env.effect
  | Op.UpdateTrackData effect _ => effect
  | Op.UpdateTitle effect => effect
  | _ => none

/-- The name of the track most recently passed to `UpdateTrackData` in `ops`;
`current` when there is none. -/
def lastTrackName (current : String) (ops : List Op) : String :=
  match ops with
  | [] => current
  | Op.UpdateTrackData _ track :: rest => lastTrackName track.name rest
  | _ :: rest => lastTrackName current rest

/-- The dialog `h` was dropped by the check of lines 89 to 93: the call of
`ShowClientInterface` on `h` is directly followed by `assert(false)`, after
which `Show` clears the handle. -/
def droppedByCheck (h : HostId) (log : List Event) : Prop :=
  ∃ before after,
    log = before ++ Event.showClientInterface h :: Event.assertFalse :: after

/-- Facts about the host handle that hold in every state reached from a fresh
object: a host referred to is visible, the object is subscribed to the window
of the project the host was created for, and every dialog handed to
`ShowClientInterface` is the current host, or was closed, or was dropped by
the check that directly follows that call. -/
structure HandleInv (s : System) : Prop where
  visible : ∀ host, s.ui.mEffectUIHost = some host → host.shown = true
  subscribed : ∀ host, s.ui.mEffectUIHost = some host →
    ∃ project, s.ui.mProjectWindowDestroyedSubscription = some project ∧
      Event.newHost host.id project ∈ s.log
  owned : ∀ h, Event.showClientInterface h ∈ s.log →
    (∃ host, s.ui.mEffectUIHost = some host ∧ host.id = h) ∨ Event.close h ∈ s.log ∨
      droppedByCheck h s.log

/-- The title of the host, when there is one, is formed from the two stored
names, and so is its name. -/
def TitleInv (s : System) : Prop :=
  ∀ host, s.ui.mEffectUIHost = some host →
    host.title = titleOf s.ui.mEffectName s.ui.mTrackName ∧
    host.name = titleOf s.ui.mEffectName s.ui.mTrackName

/-- The cached effect name is empty or `n`, and it is `n` when a host exists. -/
def NameInv (n : String) (s : System) : Prop :=
  (s.ui.mEffectName = "" ∨ s.ui.mEffectName = n) ∧
    (s.ui.mEffectUIHost ≠ none → s.ui.mEffectName = n)

end Audacity

namespace Audacity

/-! ## Single operations -/

theorem ShowCreate_of_fails (env : Collaborators) (project : AudacityProject) (s : System)
    (hfail : ShowFails env) :
    (ShowCreate env project s).ui = s.ui ∧
      ∃ evs, (ShowCreate env project s).log = s.log ++ evs ∧
        ∀ e ∈ evs, e = Event.getEffect ∨ e = Event.newHost s.allocated project ∨
          e = Event.dlgInit s.allocated ∨ e = Event.destroyHost s.allocated := by
  unfold ShowCreate
  rcases hfail with h | ⟨p, hp, hc⟩ | h
  · simp [h]
  · simp [hp, hc]
  · cases he : env.effect with
    | none => simp
    | some p =>
      by_cases hc : p.hasClientInterface = false
      · simp [hc]
      · simp [hc, h]

theorem Show_of_not_hostIsShown (env : Collaborators) (project : AudacityProject) (s : System)
    (hhidden : hostIsShown s.ui.mEffectUIHost = false) :
    Show env project s = ShowCreate env project s := by
  unfold Show
  cases hh : s.ui.mEffectUIHost with
  | none => rfl
  | some host =>
    have : host.shown = false := by simpa [hostIsShown, hh] using hhidden
    simp [this]

/-- C2: in a state with no visible host window, a `Show` that fails (no plugin
for the ID, no client interface, or `Initialize()` false) leaves every data
member of the object unchanged, calls nothing but the registry lookup and the
creation, initialisation and destruction of the abandoned dialog (in
particular it raises no assertion and displays nothing), and on a hidden
object `IsShown()` is false afterwards. -/
theorem Show_failure_is_silent (env : Collaborators) (project : AudacityProject)
    (s : System) (hhidden : hostIsShown s.ui.mEffectUIHost = false)
    (hfail : ShowFails env) :
    (Show env project s).ui = s.ui ∧
      (∃ evs, (Show env project s).log = s.log ++ evs ∧
        ∀ e ∈ evs, e = Event.getEffect ∨ e = Event.newHost s.allocated project ∨
          e = Event.dlgInit s.allocated ∨ e = Event.destroyHost s.allocated) ∧
      (IsShown s = false → IsShown (Show env project s) = false) := by
  rw [Show_of_not_hostIsShown env project s hhidden]
  obtain ⟨hui, hlog⟩ := ShowCreate_of_fails env project s hfail
  refine ⟨hui, hlog, ?_⟩
  intro h
  simpa [IsShown, hui] using h

/-- Witness for C2: a fresh object and a registry that returns no plugin. -/
theorem Show_failure_is_silent_witness :
    hostIsShown fresh.ui.mEffectUIHost = false ∧
      ShowFails { effect := none, dlgInit := true, clientOutcome := ClientOutcome.shown } ∧
      (Show { effect := none, dlgInit := true, clientOutcome := ClientOutcome.shown } 1 fresh).ui
        = fresh.ui ∧
      IsShown (Show { effect := none, dlgInit := true, clientOutcome := ClientOutcome.shown }
        1 fresh) = false :=
  ⟨rfl, Or.inl rfl,
   (Show_failure_is_silent _ 1 fresh rfl (Or.inl rfl)).1,
   (Show_failure_is_silent _ 1 fresh rfl (Or.inl rfl)).2.2 rfl⟩

/-- What `Hide` does to the handle, the log and the two names. -/
theorem Hide_facts (s : System) :
    Destructor s = Hide s ∧
      IsShown (Hide s) = false ∧
      (∀ host, s.ui.mEffectUIHost = some host →
        (Hide s).log = s.log ++ [Event.close host.id]) ∧
      (s.ui.mEffectUIHost = none → (Hide s).log = s.log) ∧
      (Hide s).ui.mEffectName = s.ui.mEffectName ∧
      (Hide s).ui.mTrackName = s.ui.mTrackName := by
  refine ⟨rfl, ?_, ?_, ?_, ?_, ?_⟩ <;> unfold Hide <;>
    cases hh : s.ui.mEffectUIHost <;> simp [IsShown, hh]

/-- The effect name after `UpdateTitle` ran with a host present. -/
theorem UpdateTitle_of_host (effect : Option EffectPlugin) (s : System) (host : EffectUIHost)
    (hh : s.ui.mEffectUIHost = some host) :
    (UpdateTitle effect s).ui =
      { mEffectUIHost := some { host with
          title := titleOf (cachedName effect s.ui.mEffectName) s.ui.mTrackName,
          name := titleOf (cachedName effect s.ui.mEffectName) s.ui.mTrackName },
        mEffectName := cachedName effect s.ui.mEffectName,
        mTrackName := s.ui.mTrackName,
        mProjectWindowDestroyedSubscription := s.ui.mProjectWindowDestroyedSubscription } ∧
      (UpdateTitle effect s).allocated = s.allocated ∧
      (UpdateTitle effect s).log =
        s.log ++ (if s.ui.mEffectName = "" then [Event.getEffect] else []) ++
          [Event.setTitle host.id (titleOf (cachedName effect s.ui.mEffectName) s.ui.mTrackName),
           Event.setName host.id (titleOf (cachedName effect s.ui.mEffectName) s.ui.mTrackName)] := by
  unfold UpdateTitle cachedName
  simp only [hh]
  by_cases hn : s.ui.mEffectName = ""
  · cases effect <;> simp [hn]
  · simp [hn]

theorem UpdateTitle_of_no_host (effect : Option EffectPlugin) (s : System)
    (hh : s.ui.mEffectUIHost = none) : UpdateTitle effect s = s := by
  unfold UpdateTitle
  simp [hh]

/-- The data members after a `Show` that passed the three checks of lines 57,
63 and 77. -/
theorem ShowCreate_of_stored (env : Collaborators) (project : AudacityProject) (s : System)
    (p : EffectPlugin) (he : env.effect = some p) (hc : p.hasClientInterface = true)
    (hi : env.dlgInit = true) :
    (ShowCreate env project s).ui =
      { mEffectUIHost :=
          if env.clientOutcome = ClientOutcome.shown then
            some { id := s.allocated, shown := true,
                   title := titleOf (cachedName env.effect s.ui.mEffectName) s.ui.mTrackName,
                   name := titleOf (cachedName env.effect s.ui.mEffectName) s.ui.mTrackName }
          else none,
        mEffectName := cachedName env.effect s.ui.mEffectName,
        mTrackName := s.ui.mTrackName,
        mProjectWindowDestroyedSubscription := some project } ∧
      (ShowCreate env project s).allocated = s.allocated + 1 ∧
      (ShowCreate env project s).log =
        s.log ++ [Event.getEffect, Event.newHost s.allocated project, Event.dlgInit s.allocated] ++
          (if s.ui.mEffectName = "" then [Event.getEffect] else []) ++
          [Event.setTitle s.allocated (titleOf (cachedName env.effect s.ui.mEffectName) s.ui.mTrackName),
           Event.setName s.allocated (titleOf (cachedName env.effect s.ui.mEffectName) s.ui.mTrackName),
           Event.showClientInterface s.allocated] ++
          (if env.clientOutcome = ClientOutcome.shown then [] else [Event.assertFalse]) ++
          [Event.subscribe project] := by
  unfold ShowCreate UpdateTitle cachedName
  simp only [he, hc, hi]
  by_cases hn : s.ui.mEffectName = "" <;> cases ho : env.clientOutcome <;>
    simp [hn, afterShowClientInterface, hostIsShown]

theorem IsShown_Show_of_hidden (env : Collaborators) (project : AudacityProject) (s : System)
    (hhidden : IsShown s = false) :
    IsShown (Show env project s) = true ↔ ShowSucceeds env := by
  have hn : s.ui.mEffectUIHost = none := by simpa [IsShown] using hhidden
  rw [Show_of_not_hostIsShown env project s (by simp [hostIsShown, hn])]
  by_cases hf : ShowFails env
  · have h1 := (ShowCreate_of_fails env project s hf).1
    have h2 : ¬ ShowSucceeds env := by
      rintro ⟨⟨p, hp, hc⟩, hi, -⟩
      rcases hf with h | ⟨q, hq, hqc⟩ | h
      · simp [h] at hp
      · rw [hp] at hq
        cases hq
        simp [hc] at hqc
      · simp [hi] at h
    simp [IsShown, h1, hn, h2]
  · cases he : env.effect with
    | none => exact absurd (Or.inl he) hf
    | some p =>
      have hc : p.hasClientInterface = true := by
        by_contra hc
        exact hf (Or.inr (Or.inl ⟨p, he, by simpa using hc⟩))
      have hi : env.dlgInit = true := by
        by_contra hi
        exact hf (Or.inr (Or.inr (by simpa using hi)))
      have h1 := (ShowCreate_of_stored env project s p he hc hi).1
      unfold ShowSucceeds
      cases ho : env.clientOutcome <;> simp [IsShown, h1, ho, he, hc, hi]

/-- C7: `Toggle` is `Hide` on a shown object and `Show` on a hidden one; so on
a shown object it leaves `IsShown()` false, and on a hidden object it leaves
`IsShown()` true exactly when `Show` does, which is exactly when every
collaborator cooperates. -/
theorem Toggle_flips (env : Collaborators) (project : AudacityProject) (s : System) :
    (IsShown s = true → Toggle env project s = Hide s) ∧
      (IsShown s = false → Toggle env project s = Show env project s) ∧
      (IsShown s = true → IsShown (Toggle env project s) = false) ∧
      (IsShown s = false →
        (IsShown (Toggle env project s) = true ↔ IsShown (Show env project s) = true)) ∧
      (IsShown s = false →
        (IsShown (Toggle env project s) = true ↔ ShowSucceeds env)) := by
  refine ⟨?_, ?_, ?_, ?_, ?_⟩
  · intro h; simp [Toggle, h]
  · intro h; simp [Toggle, h]
  · intro h
    simp only [Toggle, h, if_true]
    exact (Hide_facts s).2.1
  · intro h; simp [Toggle, h]
  · intro h
    simp only [Toggle, h]
    exact IsShown_Show_of_hidden env project s h

/-- What `Show` does when the host exists and is visible. -/
theorem Show_raise_facts (env env2 : Collaborators)
    (project project2 : AudacityProject) (s : System) (host : EffectUIHost)
    (hh : s.ui.mEffectUIHost = some host) (hs : host.shown = true) :
    (Show env project s).ui = s.ui ∧
      (Show env project s).allocated = s.allocated ∧
      (Show env project s).log = s.log ++ [Event.raise host.id] ∧
      (Show env2 project2 (Show env project s)).ui = s.ui ∧
      (Show env2 project2 (Show env project s)).log =
        s.log ++ [Event.raise host.id, Event.raise host.id] := by
  have h1 : Show env project s = { s with log := s.log ++ [Event.raise host.id] } := by
    unfold Show
    simp [hh, hs]
  have h2 : Show env2 project2 { s with log := s.log ++ [Event.raise host.id] } =
      { s with log := s.log ++ [Event.raise host.id] ++ [Event.raise host.id] } := by
    unfold Show
    simp [hh, hs]
  rw [h1, h2]
  simp

/-- What `UpdateTitle` and `UpdateTrackData` do when no host exists. -/
theorem UpdateTrackData_of_no_host (effect : Option EffectPlugin) (track : Track) (s : System)
    (hh : s.ui.mEffectUIHost = none) :
    UpdateTitle effect s = s ∧
      UpdateTrackData effect track s = { s with ui := { s.ui with mTrackName := track.name } } ∧
      (UpdateTrackData effect track s).ui.mTrackName = track.name ∧
      IsShown (UpdateTrackData effect track s) = false ∧
      (UpdateTrackData effect track s).ui.mEffectName = s.ui.mEffectName ∧
      (UpdateTrackData effect track s).log = s.log := by
  have h1 : UpdateTrackData effect track s =
      { s with ui := { s.ui with mTrackName := track.name } } := by
    unfold UpdateTrackData
    exact UpdateTitle_of_no_host effect _ hh
  refine ⟨UpdateTitle_of_no_host effect s hh, h1, ?_, ?_, ?_, ?_⟩ <;> rw [h1]
  simp [IsShown, hh]

/-! ## Sequences of operations -/

theorem run_append (a b : List Op) (s : System) : run (a ++ b) s = run b (run a s) := by
  induction a generalizing s with
  | nil => rfl
  | cons op rest ih => simp [run, ih]

theorem showSucceeds_iff (env : Collaborators) : showSucceeds env = true ↔ ShowSucceeds env := by
  unfold showSucceeds ShowSucceeds
  cases he : env.effect with
  | none => simp
  | some p => simp [and_assoc]

theorem Displayed_IsShown {project : AudacityProject} {s : System} (h : Displayed project s) :
    IsShown s = true := by
  obtain ⟨⟨host, hh, -⟩, -⟩ := h
  simp [IsShown, hh]

/-- From a hidden object, a cooperative `Show` displays the dialog and
subscribes to the window of its project. -/
theorem Show_displays (env : Collaborators) (project : AudacityProject) (s : System)
    (hhidden : IsShown s = false) (hok : ShowSucceeds env) :
    Displayed project (Show env project s) := by
  have hn : s.ui.mEffectUIHost = none := by simpa [IsShown] using hhidden
  rw [Show_of_not_hostIsShown env project s (by simp [hostIsShown, hn])]
  obtain ⟨⟨p, he, hc⟩, hi, ho⟩ := hok
  have h1 := (ShowCreate_of_stored env project s p he hc hi).1
  unfold Displayed
  rw [h1]
  simp [ho]

/-- On a displayed dialog, an operation that hides hides, and any other keeps
the dialog displayed. -/
theorem step_of_Displayed (op : Op) (project : AudacityProject) (s : System)
    (hd : Displayed project s) :
    (op.endsDisplay project = true → IsShown (step op s) = false) ∧
      (op.endsDisplay project = false → Displayed project (step op s)) := by
  obtain ⟨⟨host, hh, hs⟩, hsub⟩ := hd
  have hHide : IsShown (Hide s) = false := (Hide_facts s).2.1
  cases op with
  | Show env q =>
    have h1 := (Show_raise_facts env env q q s host hh hs).1
    simp only [Op.endsDisplay, step, Displayed, h1]
    simp [hh, hs, hsub]
  | Hide => simpa [Op.endsDisplay, step] using hHide
  | Toggle env q => simpa [Op.endsDisplay, step, Toggle, IsShown, hh] using hHide
  | UpdateTrackData effect track =>
    have h1 := (UpdateTitle_of_host effect
      { s with ui := { s.ui with mTrackName := track.name } } host hh).1
    simp only [Op.endsDisplay, step, Displayed, UpdateTrackData, h1]
    simp [hs, hsub]
  | UpdateTitle effect =>
    have h1 := (UpdateTitle_of_host effect s host hh).1
    simp only [Op.endsDisplay, step, Displayed, h1]
    simp [hs, hsub]
  | ProjectWindowDestroyed q =>
    by_cases hq : q = project
    · simpa [Op.endsDisplay, step, publishProjectWindowDestroyed, OnProjectWindowDestroyed, hq, hsub]
        using hHide
    · have hq2 : ¬ project = q := fun h => hq h.symm
      simp [Op.endsDisplay, step, publishProjectWindowDestroyed, hq, hq2, hsub, Displayed, hh, hs]

theorem run_of_Displayed (post : List Op) (project : AudacityProject) (s : System)
    (hd : Displayed project s) (hpost : ∀ o ∈ post, o.endsDisplay project = false) :
    Displayed project (run post s) := by
  induction post generalizing s with
  | nil => exact hd
  | cons o rest ih =>
    simp only [run]
    exact ih _ ((step_of_Displayed o project s hd).2 (hpost o (by simp)))
      (fun o2 h2 => hpost o2 (by simp [h2]))

/-- From a hidden object, an operation leaves the dialog shown only when it is
a cooperative `Show` or `Toggle`. -/
theorem step_of_hidden (op : Op) (s : System) (hhidden : IsShown s = false)
    (hshown : IsShown (step op s) = true) :
    ∃ env project, op.startsDisplay = some (env, project) ∧ ShowSucceeds env := by
  have hn : s.ui.mEffectUIHost = none := by simpa [IsShown] using hhidden
  have hHide : IsShown (Hide s) = false := (Hide_facts s).2.1
  cases op with
  | Show env q =>
    exact ⟨env, q, rfl, (IsShown_Show_of_hidden env q s hhidden).1 hshown⟩
  | Hide => simp [step, hHide] at hshown
  | Toggle env q =>
    refine ⟨env, q, rfl, (IsShown_Show_of_hidden env q s hhidden).1 ?_⟩
    simpa [step, Toggle, hhidden] using hshown
  | UpdateTrackData effect track =>
    have h1 := (UpdateTrackData_of_no_host effect track s hn).2.2.2.1
    simp [step, h1] at hshown
  | UpdateTitle effect =>
    simp [step, UpdateTitle_of_no_host effect s hn, hhidden] at hshown
  | ProjectWindowDestroyed q =>
    simp only [step, publishProjectWindowDestroyed, OnProjectWindowDestroyed] at hshown
    split at hshown
    · simp [hHide] at hshown
    · simp [hhidden] at hshown

theorem startsDisplay_displays (op : Op) (env : Collaborators) (project : AudacityProject)
    (s : System) (hop : op.startsDisplay = some (env, project)) (hhidden : IsShown s = false)
    (hok : ShowSucceeds env) : Displayed project (step op s) := by
  cases op with
  | Show e q =>
    simp only [Op.startsDisplay, Option.some.injEq, Prod.mk.injEq] at hop
    obtain ⟨rfl, rfl⟩ := hop
    exact Show_displays e q s hhidden hok
  | Toggle e q =>
    simp only [Op.startsDisplay, Option.some.injEq, Prod.mk.injEq] at hop
    obtain ⟨rfl, rfl⟩ := hop
    simpa [step, Toggle, hhidden] using Show_displays e q s hhidden hok
  | Hide => simp [Op.startsDisplay] at hop
  | UpdateTrackData effect track => simp [Op.startsDisplay] at hop
  | UpdateTitle effect => simp [Op.startsDisplay] at hop
  | ProjectWindowDestroyed q => simp [Op.startsDisplay] at hop

/-- A shown dialog was displayed by a cooperative `Show` or `Toggle` applied
to the hidden object, and nothing ended the display since. -/
theorem shown_has_origin (ops : List Op) (hshown : IsShown (run ops fresh) = true) :
    ∃ pre op env project post, ops = pre ++ op :: post ∧
      op.startsDisplay = some (env, project) ∧ IsShown (run pre fresh) = false ∧
      ShowSucceeds env ∧ (∀ o ∈ post, o.endsDisplay project = false) ∧
      Displayed project (run ops fresh) := by
  induction ops using List.reverseRecOn with
  | nil => simp [run, fresh, IsShown] at hshown
  | append_singleton init o ih =>
    have hrun : run (init ++ [o]) fresh = step o (run init fresh) := by
      rw [run_append]; rfl
    rw [hrun] at hshown ⊢
    by_cases hprev : IsShown (run init fresh) = true
    · obtain ⟨pre, op, env, project, post, hsplit, hop, hpre, hok, hpost, hdisp⟩ := ih hprev
      cases hends : o.endsDisplay project with
      | true =>
        have := (step_of_Displayed o project _ hdisp).1 hends
        simp [this] at hshown
      | false =>
        refine ⟨pre, op, env, project, post ++ [o], ?_, hop, hpre, hok, ?_,
          (step_of_Displayed o project _ hdisp).2 hends⟩
        · simp [hsplit]
        · intro o2 h2
          rcases List.mem_append.1 h2 with h3 | h3
          · exact hpost o2 h3
          · simp only [List.mem_singleton] at h3
            rw [h3]; exact hends
    · have hhid : IsShown (run init fresh) = false := by simpa using hprev
      obtain ⟨env, project, hop, hok⟩ := step_of_hidden o _ hhid hshown
      exact ⟨init, o, env, project, [], rfl, hop, hhid, hok, by simp,
        startsDisplay_displays o env project _ hop hhid hok⟩

/-- C1 (as amended): after any sequence of operations on a freshly constructed
object, `IsShown()` is true if and only if some `Show` or `Toggle`, applied
while `IsShown()` was false, succeeded on a project, and no `Hide`, no
`Toggle` and no destruction of that project's window occurred after it. -/
theorem IsShown_iff_displayed_and_not_ended (ops : List Op) :
    IsShown (run ops fresh) = true ↔
      ∃ pre env project post,
        (ops = pre ++ Op.Show env project :: post ∨ ops = pre ++ Op.Toggle env project :: post) ∧
        IsShown (run pre fresh) = false ∧ ShowSucceeds env ∧
        ∀ o ∈ post, o ≠ Op.Hide ∧ (∀ e q, o ≠ Op.Toggle e q) ∧
          o ≠ Op.ProjectWindowDestroyed project := by
  have hends : ∀ (project : AudacityProject) (o : Op), o.endsDisplay project = false ↔
      (o ≠ Op.Hide ∧ (∀ e q, o ≠ Op.Toggle e q) ∧ o ≠ Op.ProjectWindowDestroyed project) := by
    intro project o
    cases o <;> simp [Op.endsDisplay]
  constructor
  · intro hshown
    obtain ⟨pre, op, env, project, post, hsplit, hop, hpre, hok, hpost, -⟩ :=
      shown_has_origin ops hshown
    refine ⟨pre, env, project, post, ?_, hpre, hok, fun o ho => (hends project o).1 (hpost o ho)⟩
    cases op <;> simp [Op.startsDisplay] at hop
    · obtain ⟨rfl, rfl⟩ := hop
      exact Or.inl hsplit
    · obtain ⟨rfl, rfl⟩ := hop
      exact Or.inr hsplit
  · rintro ⟨pre, env, project, post, hsplit, hpre, hok, hpost⟩
    have hpost2 : ∀ o ∈ post, o.endsDisplay project = false :=
      fun o ho => (hends project o).2 (hpost o ho)
    rcases hsplit with h | h
    · rw [h, run_append]
      simp only [run]
      exact Displayed_IsShown (run_of_Displayed post project _
        (startsDisplay_displays (Op.Show env project) env project _ rfl hpre hok) hpost2)
    · rw [h, run_append]
      simp only [run]
      exact Displayed_IsShown (run_of_Displayed post project _
        (startsDisplay_displays (Op.Toggle env project) env project _ rfl hpre hok) hpost2)

/-- C1 as worded fails: one cooperative `Toggle` on a fresh object leaves
`IsShown()` true, although no `Show` operation occurred and the last operation
is a `Toggle`. -/
theorem IsShown_worded_counterexample :
    IsShown (run [Op.Toggle ⟨some ⟨"Reverb", true⟩, true, ClientOutcome.shown⟩ 1] fresh) = true ∧
      shownAsWorded false [Op.Toggle ⟨some ⟨"Reverb", true⟩, true, ClientOutcome.shown⟩ 1]
        = false := by
  decide

/-! ## Invariants of reachable states -/

theorem run_invariant (P : System → Prop) (Q : Op → Prop)
    (hstep : ∀ op s, Q op → P s → P (step op s)) (ops : List Op) (s : System)
    (hQ : ∀ op ∈ ops, Q op) (hs : P s) : P (run ops s) := by
  induction ops generalizing s with
  | nil => exact hs
  | cons op rest ih =>
    simp only [run]
    exact ih _ (fun o ho => hQ o (by simp [ho])) (hstep op s (hQ op (by simp)) hs)

/-- The three ways `Show` can go. -/
theorem Show_cases (env : Collaborators) (project : AudacityProject) (s : System) :
    (∃ host, s.ui.mEffectUIHost = some host ∧ host.shown = true ∧
        Show env project s = { s with log := s.log ++ [Event.raise host.id] }) ∨
      (hostIsShown s.ui.mEffectUIHost = false ∧ ShowFails env ∧
        Show env project s = ShowCreate env project s) ∨
      (hostIsShown s.ui.mEffectUIHost = false ∧
        (∃ p, env.effect = some p ∧ p.hasClientInterface = true ∧ env.dlgInit = true) ∧
        Show env project s = ShowCreate env project s) := by
  cases hv : hostIsShown s.ui.mEffectUIHost with
  | true =>
    left
    cases hh : s.ui.mEffectUIHost with
    | none => simp [hostIsShown, hh] at hv
    | some host =>
      have hs : host.shown = true := by simpa [hostIsShown, hh] using hv
      refine ⟨host, rfl, hs, ?_⟩
      unfold Show
      simp [hh, hs]
  | false =>
    right
    have h1 := Show_of_not_hostIsShown env project s hv
    by_cases hf : ShowFails env
    · exact Or.inl ⟨rfl, hf, h1⟩
    · right
      refine ⟨rfl, ?_, h1⟩
      cases he : env.effect with
      | none => exact absurd (Or.inl he) hf
      | some p =>
        refine ⟨p, rfl, ?_, ?_⟩
        · by_contra hc
          exact hf (Or.inr (Or.inl ⟨p, he, by simpa using hc⟩))
        · by_contra hi
          exact hf (Or.inr (Or.inr (by simpa using hi)))

theorem droppedByCheck_append (h : HostId) (log evs : List Event)
    (hd : droppedByCheck h log) : droppedByCheck h (log ++ evs) := by
  obtain ⟨before, after, heq⟩ := hd
  exact ⟨before, after ++ evs, by simp [heq]⟩

theorem HandleInv_fresh : HandleInv fresh := by
  constructor <;> simp [fresh]

theorem HandleInv_Hide (s : System) (hinv : HandleInv s) : HandleInv (Hide s) := by
  unfold Hide
  cases hh : s.ui.mEffectUIHost with
  | none => simpa using hinv
  | some host =>
    constructor
    · simp
    · simp
    · intro h hsci
      simp only [List.mem_append, List.mem_singleton, reduceCtorEq, or_false] at hsci
      rcases hinv.owned h hsci with ⟨host2, h2, h3⟩ | h2 | h2
      · right; left
        rw [hh] at h2
        cases h2
        simp [h3]
      · right; left
        simp [h2]
      · right; right
        exact droppedByCheck_append h s.log _ h2

theorem HandleInv_of_ui_host (s t : System) (hinv : HandleInv s)
    (hhost : ∀ host, t.ui.mEffectUIHost = some host →
      ∃ host0, s.ui.mEffectUIHost = some host0 ∧ host0.id = host.id ∧ host0.shown = host.shown)
    (hhost2 : ∀ host0, s.ui.mEffectUIHost = some host0 →
      ∃ host, t.ui.mEffectUIHost = some host ∧ host0.id = host.id)
    (hsub : t.ui.mProjectWindowDestroyedSubscription = s.ui.mProjectWindowDestroyedSubscription)
    (evs : List Event) (hlog : t.log = s.log ++ evs)
    (hevs : ∀ e ∈ evs, ∀ h, e ≠ Event.showClientInterface h) :
    HandleInv t := by
  constructor
  · intro host hh
    obtain ⟨host0, h0, -, h2⟩ := hhost host hh
    rw [← h2]
    exact hinv.visible host0 h0
  · intro host hh
    obtain ⟨host0, h0, h1, -⟩ := hhost host hh
    obtain ⟨project, hp, hn⟩ := hinv.subscribed host0 h0
    refine ⟨project, by rw [hsub, hp], ?_⟩
    rw [hlog, ← h1]
    simp [hn]
  · intro h hsci
    rw [hlog] at hsci ⊢
    rcases List.mem_append.1 hsci with h1 | h1
    · rcases hinv.owned h h1 with ⟨host0, h2, h3⟩ | h2 | h2
      · left
        obtain ⟨host, h4, h5⟩ := hhost2 host0 h2
        exact ⟨host, h4, by rw [← h5, h3]⟩
      · right; left
        simp [h2]
      · right; right
        exact droppedByCheck_append h s.log evs h2
    · exact absurd rfl (hevs _ h1 h)

theorem HandleInv_UpdateTitle_at (effect : Option EffectPlugin) (s t : System)
    (hinv : HandleInv s) (hhost : t.ui.mEffectUIHost = s.ui.mEffectUIHost)
    (hsub : t.ui.mProjectWindowDestroyedSubscription = s.ui.mProjectWindowDestroyedSubscription)
    (hlog : t.log = s.log) : HandleInv (UpdateTitle effect t) := by
  cases hh : t.ui.mEffectUIHost with
  | none =>
    rw [UpdateTitle_of_no_host effect t hh]
    exact HandleInv_of_ui_host s t hinv (by simp [hh]) (by simp [← hhost, hh]) hsub [] (by simp [hlog])
      (by simp)
  | some host =>
    obtain ⟨hui, -, hl⟩ := UpdateTitle_of_host effect t host hh
    refine HandleInv_of_ui_host s _ hinv ?_ ?_ ?_ _ (by rw [hl, hlog, List.append_assoc]) ?_
    · intro host2 h2
      rw [hui] at h2
      simp only [Option.some.injEq] at h2
      exact ⟨host, by rw [← hhost, hh], by rw [← h2], by rw [← h2]⟩
    · intro host0 h0
      rw [← hhost, hh] at h0
      cases h0
      rw [hui]
      exact ⟨_, rfl, rfl⟩
    · rw [hui]; exact hsub
    · intro e he
      simp only [List.mem_append, List.mem_cons, List.mem_singleton, List.not_mem_nil,
        or_false] at he
      rcases he with he | he | he
      · split at he
        · simp only [List.mem_singleton] at he
          subst he
          simp
        · simp at he
      · subst he; simp
      · subst he; simp

theorem HandleInv_Show (env : Collaborators) (project : AudacityProject) (s : System)
    (hinv : HandleInv s) : HandleInv (Show env project s) := by
  rcases Show_cases env project s with ⟨host, hh, hs, heq⟩ | ⟨hv, hf, heq⟩ | ⟨hv, ⟨p, he, hc, hi⟩, heq⟩
  · rw [heq]
    exact HandleInv_of_ui_host s _ hinv (fun h2 hh2 => ⟨h2, hh2, rfl, rfl⟩)
      (fun h0 hh0 => ⟨h0, hh0, rfl⟩) rfl [Event.raise host.id] rfl (by simp)
  · rw [heq]
    obtain ⟨hui, evs, hlog, hevs⟩ := ShowCreate_of_fails env project s hf
    refine HandleInv_of_ui_host s _ hinv ?_ ?_ (by rw [hui]) evs hlog ?_
    · intro h2 hh2; rw [hui] at hh2; exact ⟨h2, hh2, rfl, rfl⟩
    · intro h0 hh0; rw [hui]; exact ⟨h0, hh0, rfl⟩
    · intro e he
      rcases hevs e he with h | h | h | h <;> subst h <;> simp
  · rw [heq]
    obtain ⟨hui, -, hlog⟩ := ShowCreate_of_stored env project s p he hc hi
    have hnone : s.ui.mEffectUIHost = none := by
      cases hh : s.ui.mEffectUIHost with
      | none => rfl
      | some host =>
        have h1 := hinv.visible host hh
        simp [hostIsShown, hh, h1] at hv
    constructor
    · intro host hh
      rw [hui] at hh
      simp only at hh
      split at hh
      · simp only [Option.some.injEq] at hh
        rw [← hh]
      · simp at hh
    · intro host hh
      rw [hui] at hh
      simp only at hh
      split at hh
      · simp only [Option.some.injEq] at hh
        refine ⟨project, by rw [hui], ?_⟩
        rw [hlog, ← hh]
        simp
      · simp at hh
    · intro h hsci
      simp only [List.append_assoc] at hlog
      rw [hlog] at hsci ⊢
      rcases List.mem_append.1 hsci with h1 | h1
      · rcases hinv.owned h h1 with ⟨host0, h2, -⟩ | h2 | h2
        · rw [hnone] at h2; cases h2
        · right; left
          simp [h2]
        · right; right
          exact droppedByCheck_append h s.log _ h2
      · have hh : h = s.allocated := by
          by_cases hn : s.ui.mEffectName = "" <;>
            by_cases ho : env.clientOutcome = ClientOutcome.shown <;>
            simpa [hn, ho] using h1
        by_cases ho : env.clientOutcome = ClientOutcome.shown
        · left
          rw [hui]
          simp [ho, hh]
        · right; right
          refine ⟨s.log ++ ([Event.getEffect, Event.newHost s.allocated project,
              Event.dlgInit s.allocated] ++
              ((if s.ui.mEffectName = "" then [Event.getEffect] else []) ++
              [Event.setTitle s.allocated
                  (titleOf (cachedName env.effect s.ui.mEffectName) s.ui.mTrackName),
                Event.setName s.allocated
                  (titleOf (cachedName env.effect s.ui.mEffectName) s.ui.mTrackName)])),
            [Event.subscribe project], ?_⟩
          simp [ho, hh]

theorem HandleInv_step (op : Op) (s : System) (hinv : HandleInv s) : HandleInv (step op s) := by
  cases op with
  | Show env q => exact HandleInv_Show env q s hinv
  | Hide => exact HandleInv_Hide s hinv
  | Toggle env q =>
    simp only [step, Toggle]
    split
    · exact HandleInv_Hide s hinv
    · exact HandleInv_Show env q s hinv
  | UpdateTrackData effect track =>
    exact HandleInv_UpdateTitle_at effect s _ hinv rfl rfl rfl
  | UpdateTitle effect => exact HandleInv_UpdateTitle_at effect s s hinv rfl rfl rfl
  | ProjectWindowDestroyed q =>
    simp only [step, publishProjectWindowDestroyed, OnProjectWindowDestroyed]
    split
    · exact HandleInv_Hide s hinv
    · exact hinv

theorem HandleInv_run (ops : List Op) : HandleInv (run ops fresh) :=
  run_invariant HandleInv (fun _ => True) (fun op s _ h => HandleInv_step op s h) ops fresh
    (fun _ _ => trivial) HandleInv_fresh

theorem publish_to_subscriber (project : AudacityProject) (s : System) (host : EffectUIHost)
    (hh : s.ui.mEffectUIHost = some host)
    (hsub : s.ui.mProjectWindowDestroyedSubscription = some project) :
    publishProjectWindowDestroyed project s = Hide s ∧
      (publishProjectWindowDestroyed project s).log = s.log ++ [Event.close host.id] ∧
      IsShown (publishProjectWindowDestroyed project s) = false := by
  have h1 : publishProjectWindowDestroyed project s = Hide s := by
    simp [publishProjectWindowDestroyed, OnProjectWindowDestroyed, hsub]
  rw [h1]
  exact ⟨rfl, (Hide_facts s).2.2.1 host hh, (Hide_facts s).2.1⟩

/-- C5 as worded fails: after a cooperative `Show` on project 1, a `Show` on
project 2 succeeds (the dialog is shown) but the subscription held is the one
on the window of project 1; the destruction of the window of project 2 does
nothing. -/
theorem Show_subscription_counterexample :
    IsShown (run [Op.Show ⟨some ⟨"Reverb", true⟩, true, ClientOutcome.shown⟩ 1,
                  Op.Show ⟨some ⟨"Reverb", true⟩, true, ClientOutcome.shown⟩ 2] fresh) = true ∧
      (run [Op.Show ⟨some ⟨"Reverb", true⟩, true, ClientOutcome.shown⟩ 1,
            Op.Show ⟨some ⟨"Reverb", true⟩, true, ClientOutcome.shown⟩ 2]
        fresh).ui.mProjectWindowDestroyedSubscription ≠ some 2 ∧
      IsShown (run [Op.Show ⟨some ⟨"Reverb", true⟩, true, ClientOutcome.shown⟩ 1,
                    Op.Show ⟨some ⟨"Reverb", true⟩, true, ClientOutcome.shown⟩ 2,
                    Op.ProjectWindowDestroyed 2] fresh) = true := by
  decide

/-- C5 (as amended): a `Show` on a project that starts with no visible host
and succeeds leaves the object subscribed to the destruction message of that
project's window; in every state reached from a fresh object in which a host
exists, the object is subscribed to the window of the project the host was
created for, and a further `Show` (which only raises the host) keeps that
subscription whatever its project; delivering the destruction message to the
subscription does exactly what `Hide` does: the host is closed and `IsShown()`
is false afterwards. -/
theorem Show_subscribes_to_project_window (ops : List Op) (env : Collaborators)
    (project : AudacityProject) (s0 : System) :
    (hostIsShown s0.ui.mEffectUIHost = false → ShowSucceeds env →
      ∃ host, (Show env project s0).ui.mEffectUIHost = some host ∧
        (Show env project s0).ui.mProjectWindowDestroyedSubscription = some project ∧
        publishProjectWindowDestroyed project (Show env project s0) = Hide (Show env project s0) ∧
        (publishProjectWindowDestroyed project (Show env project s0)).log =
          (Show env project s0).log ++ [Event.close host.id] ∧
        IsShown (publishProjectWindowDestroyed project (Show env project s0)) = false) ∧
      (∀ host, (run ops fresh).ui.mEffectUIHost = some host →
        ∃ p, (run ops fresh).ui.mProjectWindowDestroyedSubscription = some p ∧
          Event.newHost host.id p ∈ (run ops fresh).log ∧
          (Show env project (run ops fresh)).ui.mProjectWindowDestroyedSubscription = some p ∧
          publishProjectWindowDestroyed p (run ops fresh) = Hide (run ops fresh) ∧
          (publishProjectWindowDestroyed p (run ops fresh)).log =
            (run ops fresh).log ++ [Event.close host.id] ∧
          IsShown (publishProjectWindowDestroyed p (run ops fresh)) = false) := by
  constructor
  · intro hv hok
    obtain ⟨⟨p, he, hc⟩, hi, ho⟩ := hok
    have hui := (ShowCreate_of_stored env project s0 p he hc hi).1
    rw [Show_of_not_hostIsShown env project s0 hv]
    have hh : (ShowCreate env project s0).ui.mEffectUIHost =
        some { id := s0.allocated, shown := true,
               title := titleOf (cachedName env.effect s0.ui.mEffectName) s0.ui.mTrackName,
               name := titleOf (cachedName env.effect s0.ui.mEffectName) s0.ui.mTrackName } := by
      rw [hui]; simp [ho]
    have hsub : (ShowCreate env project s0).ui.mProjectWindowDestroyedSubscription =
        some project := by rw [hui]
    exact ⟨_, hh, hsub, publish_to_subscriber project _ _ hh hsub⟩
  · intro host hh
    have hinv := HandleInv_run ops
    obtain ⟨p, hp, hn⟩ := hinv.subscribed host hh
    refine ⟨p, hp, hn, ?_, publish_to_subscriber p _ host hh hp⟩
    rw [(Show_raise_facts env env project project _ host hh
      (hinv.visible host hh)).1]
    exact hp

theorem step_mTrackName (op : Op) (s : System) :
    (step op s).ui.mTrackName = lastTrackName s.ui.mTrackName [op] := by
  have hUT : ∀ effect (t : System), (UpdateTitle effect t).ui.mTrackName = t.ui.mTrackName := by
    intro effect t
    cases hh : t.ui.mEffectUIHost with
    | none => rw [UpdateTitle_of_no_host effect t hh]
    | some host => rw [(UpdateTitle_of_host effect t host hh).1]
  have hShow : ∀ env q, (Show env q s).ui.mTrackName = s.ui.mTrackName := by
    intro env q
    rcases Show_cases env q s with ⟨host, -, -, heq⟩ | ⟨-, hf, heq⟩ | ⟨-, ⟨p, he, hc, hi⟩, heq⟩
    · rw [heq]
    · rw [heq, (ShowCreate_of_fails env q s hf).1]
    · rw [heq, (ShowCreate_of_stored env q s p he hc hi).1]
  have hHide : (Hide s).ui.mTrackName = s.ui.mTrackName := (Hide_facts s).2.2.2.2.2
  cases op with
  | Show env q => simpa [step, lastTrackName] using hShow env q
  | Hide => simpa [step, lastTrackName] using hHide
  | Toggle env q =>
    simp only [step, Toggle, lastTrackName]
    split
    · exact hHide
    · exact hShow env q
  | UpdateTrackData effect track =>
    simp only [step, UpdateTrackData, lastTrackName]
    rw [hUT]
  | UpdateTitle effect => simpa [step, lastTrackName] using hUT effect s
  | ProjectWindowDestroyed q =>
    simp only [step, publishProjectWindowDestroyed, OnProjectWindowDestroyed, lastTrackName]
    split
    · exact hHide
    · rfl

theorem run_mTrackName (ops : List Op) (s : System) :
    (run ops s).ui.mTrackName = lastTrackName s.ui.mTrackName ops := by
  induction ops generalizing s with
  | nil => rfl
  | cons op rest ih =>
    simp only [run]
    rw [ih, step_mTrackName]
    cases op <;> simp [lastTrackName]

theorem TitleInv_UpdateTitle (effect : Option EffectPlugin) (s : System) :
    s.ui.mEffectUIHost ≠ none → TitleInv (UpdateTitle effect s) := by
  intro hne host hh
  cases h0 : s.ui.mEffectUIHost with
  | none => exact absurd h0 hne
  | some host0 =>
    rw [(UpdateTitle_of_host effect s host0 h0).1] at hh ⊢
    simp only [Option.some.injEq] at hh
    rw [← hh]
    exact ⟨rfl, rfl⟩

theorem TitleInv_of_no_host (s : System) (hh : s.ui.mEffectUIHost = none) : TitleInv s := by
  intro host h
  rw [hh] at h
  cases h

theorem TitleInv_Show (env : Collaborators) (project : AudacityProject) (s : System)
    (hinv : TitleInv s) : TitleInv (Show env project s) := by
  rcases Show_cases env project s with ⟨host, -, -, heq⟩ | ⟨-, hf, heq⟩ | ⟨-, ⟨p, he, hc, hi⟩, heq⟩
  · rw [heq]; exact hinv
  · intro host hh
    rw [heq, (ShowCreate_of_fails env project s hf).1] at hh ⊢
    exact hinv host hh
  · intro host hh
    rw [heq, (ShowCreate_of_stored env project s p he hc hi).1] at hh ⊢
    simp only at hh ⊢
    split at hh
    · simp only [Option.some.injEq] at hh
      rw [← hh]
      exact ⟨rfl, rfl⟩
    · cases hh

theorem TitleInv_step (op : Op) (s : System) (hinv : TitleInv s) : TitleInv (step op s) := by
  have hHide : TitleInv (Hide s) := TitleInv_of_no_host _ (by
    have := (Hide_facts s).2.1
    simpa [IsShown] using this)
  have hUT : ∀ effect (t : System), TitleInv (UpdateTitle effect t) := by
    intro effect t
    cases hh : t.ui.mEffectUIHost with
    | none =>
      rw [UpdateTitle_of_no_host effect t hh]
      exact TitleInv_of_no_host t hh
    | some host => exact TitleInv_UpdateTitle effect t (by simp [hh])
  cases op with
  | Show env q => exact TitleInv_Show env q s hinv
  | Hide => exact hHide
  | Toggle env q =>
    simp only [step, Toggle]
    split
    · exact hHide
    · exact TitleInv_Show env q s hinv
  | UpdateTrackData effect track => exact hUT effect _
  | UpdateTitle effect => exact hUT effect s
  | ProjectWindowDestroyed q =>
    simp only [step, publishProjectWindowDestroyed, OnProjectWindowDestroyed]
    split
    · exact hHide
    · exact hinv

theorem TitleInv_run (ops : List Op) : TitleInv (run ops fresh) :=
  run_invariant TitleInv (fun _ => True) (fun op s _ h => TitleInv_step op s h) ops fresh
    (fun _ _ => trivial) (TitleInv_of_no_host fresh rfl)

theorem cachedName_cases (effect : Option EffectPlugin) (name : String) :
    cachedName effect name = name ∨
      (name = "" ∧ ∃ p, effect = some p ∧ cachedName effect name = p.definitionName) := by
  unfold cachedName
  by_cases hn : name = ""
  · cases effect with
    | none => simp [hn]
    | some p => right; exact ⟨hn, p, rfl, by simp [hn]⟩
  · simp [hn]

theorem UpdateTitle_mEffectName (effect : Option EffectPlugin) (s : System) :
    (UpdateTitle effect s).ui.mEffectName =
      if s.ui.mEffectUIHost ≠ none then cachedName effect s.ui.mEffectName
      else s.ui.mEffectName := by
  cases hh : s.ui.mEffectUIHost with
  | none => simp [UpdateTitle_of_no_host effect s hh]
  | some host => simp [(UpdateTitle_of_host effect s host hh).1]

/-- An operation leaves the cached effect name as it was, or fills the empty
cache with the name of the plugin that the registry returned, the host being
present when `UpdateTitle` ran. -/
theorem step_mEffectName (op : Op) (s : System) :
    (step op s).ui.mEffectName = s.ui.mEffectName ∨
      (s.ui.mEffectName = "" ∧
        (s.ui.mEffectUIHost ≠ none ∨ op.startsDisplay ≠ none) ∧
        ∃ p, op.registryAnswer = some p ∧ (step op s).ui.mEffectName = p.definitionName) := by
  have hHide : (Hide s).ui.mEffectName = s.ui.mEffectName := (Hide_facts s).2.2.2.2.1
  have hUT : ∀ effect (t : System), t.ui.mEffectName = s.ui.mEffectName →
      t.ui.mEffectUIHost = s.ui.mEffectUIHost →
      (UpdateTitle effect t).ui.mEffectName = s.ui.mEffectName ∨
        (s.ui.mEffectName = "" ∧ s.ui.mEffectUIHost ≠ none ∧
          ∃ p, effect = some p ∧ (UpdateTitle effect t).ui.mEffectName = p.definitionName) := by
    intro effect t hname hhost
    rw [UpdateTitle_mEffectName, hname, hhost]
    by_cases hne : s.ui.mEffectUIHost ≠ none
    · rw [if_pos hne]
      rcases cachedName_cases effect s.ui.mEffectName with h | ⟨h1, p, h2, h3⟩
      · exact Or.inl h
      · exact Or.inr ⟨h1, hne, p, h2, h3⟩
    · rw [if_neg hne]
      exact Or.inl rfl
  have hShow : ∀ env q, (Show env q s).ui.mEffectName = s.ui.mEffectName ∨
      (s.ui.mEffectName = "" ∧
        ∃ p, env.effect = some p ∧ (Show env q s).ui.mEffectName = p.definitionName) := by
    intro env q
    rcases Show_cases env q s with ⟨host, -, -, heq⟩ | ⟨-, hf, heq⟩ | ⟨-, ⟨p, he, hc, hi⟩, heq⟩
    · rw [heq]; exact Or.inl rfl
    · rw [heq, (ShowCreate_of_fails env q s hf).1]; exact Or.inl rfl
    · rw [heq, (ShowCreate_of_stored env q s p he hc hi).1]
      rcases cachedName_cases env.effect s.ui.mEffectName with h | ⟨h1, p2, h2, h3⟩
      · exact Or.inl h
      · exact Or.inr ⟨h1, p2, h2, h3⟩
  cases op with
  | Show env q =>
    rcases hShow env q with h | ⟨h1, h2⟩
    · exact Or.inl h
    · exact Or.inr ⟨h1, Or.inr (by simp [Op.startsDisplay]), h2⟩
  | Hide => exact Or.inl hHide
  | Toggle env q =>
    simp only [step, Toggle]
    split
    · exact Or.inl hHide
    · rcases hShow env q with h | ⟨h1, h2⟩
      · exact Or.inl h
      · exact Or.inr ⟨h1, Or.inr (by simp [Op.startsDisplay]), h2⟩
  | UpdateTrackData effect track =>
    rcases hUT effect { s with ui := { s.ui with mTrackName := track.name } } rfl rfl with
      h | ⟨h1, h2, h3⟩
    · exact Or.inl h
    · exact Or.inr ⟨h1, Or.inl h2, h3⟩
  | UpdateTitle effect =>
    rcases hUT effect s rfl rfl with h | ⟨h1, h2, h3⟩
    · exact Or.inl h
    · exact Or.inr ⟨h1, Or.inl h2, h3⟩
  | ProjectWindowDestroyed q =>
    simp only [step, publishProjectWindowDestroyed, OnProjectWindowDestroyed]
    split
    · exact Or.inl hHide
    · exact Or.inl rfl

theorem NameInv_step (n : String) (op : Op) (s : System)
    (hreg : ∀ p, op.registryAnswer = some p → p.definitionName = n) (hinv : NameInv n s) :
    NameInv n (step op s) := by
  obtain ⟨h1, h2⟩ := hinv
  have hname : (step op s).ui.mEffectName = s.ui.mEffectName ∨
      (step op s).ui.mEffectName = n := by
    rcases step_mEffectName op s with h | ⟨-, -, p, hp, h⟩
    · exact Or.inl h
    · exact Or.inr (by rw [h, hreg p hp])
  refine ⟨?_, ?_⟩
  · rcases hname with h | h
    · rw [h]; exact h1
    · exact Or.inr h
  · intro hne
    rcases hname with h | h
    · rw [h]
      by_cases h0 : s.ui.mEffectUIHost ≠ none
      · exact h2 h0
      · -- the host was created by this operation, so the cache was filled
        have hhid : IsShown s = false := by
          simpa [IsShown] using h0
        have hsh : IsShown (step op s) = true := by
          cases hh : (step op s).ui.mEffectUIHost with
          | none => exact absurd hh hne
          | some host => simp [IsShown, hh]
        obtain ⟨env, q, hop, ⟨p, he, hc⟩, hi, ho⟩ := step_of_hidden op s hhid hsh
        have hn0 : s.ui.mEffectUIHost = none := by simpa using h0
        have hstep : step op s = ShowCreate env q s := by
          have hS : Show env q s = ShowCreate env q s :=
            Show_of_not_hostIsShown env q s (by simp [hostIsShown, hn0])
          cases op <;> simp [Op.startsDisplay] at hop
          · obtain ⟨rfl, rfl⟩ := hop
            simpa [step] using hS
          · obtain ⟨rfl, rfl⟩ := hop
            simpa [step, Toggle, hhid] using hS
        have hans : op.registryAnswer = some p := by
          cases op <;> simp [Op.startsDisplay] at hop
          · obtain ⟨rfl, rfl⟩ := hop
            simpa [Op.registryAnswer] using he
          · obtain ⟨rfl, rfl⟩ := hop
            simpa [Op.registryAnswer] using he
        rw [← h, hstep, (ShowCreate_of_stored env q s p he hc hi).1]
        simp only [cachedName, he]
        rcases h1 with h3 | h3
        · simp [h3, hreg p hans]
        · by_cases h4 : s.ui.mEffectName = ""
          · simp [h4, hreg p hans]
          · simp only [h4, if_false]
            exact h3
    · exact h

theorem NameInv_run (n : String) (ops : List Op)
    (hreg : ∀ op ∈ ops, ∀ p, op.registryAnswer = some p → p.definitionName = n) :
    NameInv n (run ops fresh) :=
  run_invariant (NameInv n) (fun op => ∀ p, op.registryAnswer = some p → p.definitionName = n)
    (fun op s hq h => NameInv_step n op s hq h) ops fresh hreg
    ⟨Or.inl rfl, fun h => absurd rfl h⟩

/-- C3: title invariant.  In every state reached from a fresh object by
`Show`, `Hide`, `Toggle`, `UpdateTrackData`, `UpdateTitle` and window
destruction in which the host exists, the title and the name of the host are
the same string: the effect name when the stored track name is empty, and
otherwise the effect name, `" - "` and the track name.  The stored track name
is the name of the track most recently passed to `UpdateTrackData` (empty if
there was none), and the effect name is the name `n` that the definition of
the plugin registered for the effect gives. -/
theorem title_invariant (ops : List Op) (n : String)
    (hreg : ∀ op ∈ ops, ∀ p, op.registryAnswer = some p → p.definitionName = n)
    (host : EffectUIHost) (hh : (run ops fresh).ui.mEffectUIHost = some host) :
    host.name = host.title ∧
      host.title = titleOf n (lastTrackName "" ops) ∧
      (lastTrackName "" ops = "" → host.title = n) ∧
      (lastTrackName "" ops ≠ "" → host.title = n ++ " - " ++ lastTrackName "" ops) ∧
      (run ops fresh).ui.mEffectName = n ∧
      (run ops fresh).ui.mTrackName = lastTrackName "" ops := by
  obtain ⟨ht, hn⟩ := TitleInv_run ops host hh
  have hname : (run ops fresh).ui.mEffectName = n :=
    (NameInv_run n ops hreg).2 (by simp [hh])
  have htrack : (run ops fresh).ui.mTrackName = lastTrackName "" ops := run_mTrackName ops fresh
  rw [hname, htrack] at ht hn
  refine ⟨by rw [hn, ht], ht, ?_, ?_, hname, htrack⟩
  · intro h; rw [ht]; simp [titleOf, h]
  · intro h; rw [ht]; simp [titleOf, h]

/-- Witness for C3: a track name given while hidden, then a cooperative
`Show`. -/
theorem title_invariant_witness :
    (run [Op.UpdateTrackData none ⟨"Drums"⟩,
          Op.Show ⟨some ⟨"Reverb", true⟩, true, ClientOutcome.shown⟩ 1] fresh).ui.mEffectUIHost
        = some ⟨0, true, "Reverb - Drums", "Reverb - Drums"⟩ ∧
      (⟨0, true, "Reverb - Drums", "Reverb - Drums"⟩ : EffectUIHost).title =
        titleOf "Reverb" (lastTrackName ""
          [Op.UpdateTrackData none ⟨"Drums"⟩,
           Op.Show ⟨some ⟨"Reverb", true⟩, true, ClientOutcome.shown⟩ 1]) :=
  ⟨by decide,
   (title_invariant
      [Op.UpdateTrackData none ⟨"Drums"⟩,
       Op.Show ⟨some ⟨"Reverb", true⟩, true, ClientOutcome.shown⟩ 1] "Reverb"
      (by
        intro op hop p hp
        simp only [List.mem_cons, List.mem_singleton, List.not_mem_nil, or_false] at hop
        rcases hop with rfl | rfl
        · simp [Op.registryAnswer] at hp
        · simp only [Op.registryAnswer, Option.some.injEq] at hp
          rw [← hp])
      ⟨0, true, "Reverb - Drums", "Reverb - Drums"⟩ (by decide)).2.1⟩

/-! ## Hide, raise-only Show, and updates without a host -/

/-- C4: `Hide` (and the destructor, whose body is `Hide`) releases the window
handle at once: `IsShown()` is false afterwards; when a host existed, the only
call made is one `Close` on that host; when none existed, no call is made; the
stored effect name and track name are unchanged. -/
theorem Hide_releases_handle (s : System) :
    Destructor s = Hide s ∧
      IsShown (Hide s) = false ∧
      (∀ host, s.ui.mEffectUIHost = some host →
        (Hide s).log = s.log ++ [Event.close host.id]) ∧
      (s.ui.mEffectUIHost = none → (Hide s).log = s.log) ∧
      (Hide s).ui.mEffectName = s.ui.mEffectName ∧
      (Hide s).ui.mTrackName = s.ui.mTrackName :=
  Hide_facts s

/-- C8: when the host window exists and is visible, `Show` only raises it: the
one call made is `Raise` on the existing host (no registry lookup, no dialog
creation), every data member (host handle with its title and name, cached
effect name, track name, subscription) is unchanged, and a further `Show`
leaves the data members unchanged again. -/
theorem Show_on_visible_host_only_raises (env env2 : Collaborators)
    (project project2 : AudacityProject) (s : System) (host : EffectUIHost)
    (hh : s.ui.mEffectUIHost = some host) (hs : host.shown = true) :
    (Show env project s).ui = s.ui ∧
      (Show env project s).allocated = s.allocated ∧
      (Show env project s).log = s.log ++ [Event.raise host.id] ∧
      (Show env2 project2 (Show env project s)).ui = s.ui ∧
      (Show env2 project2 (Show env project s)).log =
        s.log ++ [Event.raise host.id, Event.raise host.id] :=
  Show_raise_facts env env2 project project2 s host hh hs

/-- Witness for C8: the state reached by one cooperative `Show` has a visible
host, and a second `Show` only raises it. -/
theorem Show_on_visible_host_only_raises_witness :
    (Show ⟨some ⟨"Reverb", true⟩, true, ClientOutcome.shown⟩ 1 fresh).ui.mEffectUIHost =
        some ⟨0, true, "Reverb", "Reverb"⟩ ∧
      (Show ⟨none, false, ClientOutcome.hidden⟩ 2
          (Show ⟨some ⟨"Reverb", true⟩, true, ClientOutcome.shown⟩ 1 fresh)).ui =
        (Show ⟨some ⟨"Reverb", true⟩, true, ClientOutcome.shown⟩ 1 fresh).ui :=
  ⟨by decide,
   (Show_on_visible_host_only_raises ⟨none, false, ClientOutcome.hidden⟩
      ⟨none, false, ClientOutcome.hidden⟩ 2 2
      (Show ⟨some ⟨"Reverb", true⟩, true, ClientOutcome.shown⟩ 1 fresh)
      ⟨0, true, "Reverb", "Reverb"⟩ (by decide) rfl).1⟩

/-- C9: when no host window exists, `UpdateTitle` returns the whole state
unchanged (no registry lookup, effect name not filled in), and
`UpdateTrackData(track)` changes nothing but the stored track name, which
becomes `track.GetName()`: `IsShown()` stays false, the cached effect name and
the log of calls are unchanged. -/
theorem no_host_UpdateTitle_noop (effect : Option EffectPlugin) (track : Track) (s : System)
    (hh : s.ui.mEffectUIHost = none) :
    UpdateTitle effect s = s ∧
      UpdateTrackData effect track s = { s with ui := { s.ui with mTrackName := track.name } } ∧
      (UpdateTrackData effect track s).ui.mTrackName = track.name ∧
      IsShown (UpdateTrackData effect track s) = false ∧
      (UpdateTrackData effect track s).ui.mEffectName = s.ui.mEffectName ∧
      (UpdateTrackData effect track s).log = s.log :=
  UpdateTrackData_of_no_host effect track s hh

/-- Witness for C9: a fresh object has no host window. -/
theorem no_host_UpdateTitle_noop_witness :
    fresh.ui.mEffectUIHost = none ∧
      UpdateTitle (some ⟨"Reverb", true⟩) fresh = fresh ∧
      (UpdateTrackData (some ⟨"Reverb", true⟩) ⟨"Drums"⟩ fresh).ui.mTrackName = "Drums" :=
  ⟨rfl, (no_host_UpdateTitle_noop (some ⟨"Reverb", true⟩) ⟨"Drums"⟩ fresh rfl).1,
   (no_host_UpdateTitle_noop (some ⟨"Reverb", true⟩) ⟨"Drums"⟩ fresh rfl).2.2.1⟩

end Audacity
